import Mathlib

/-!
Shallow embedding of the transactional control-plane storage layer of the
meilisearch fork: the `HeedAuthStore` (auth_store.rs) with its primary
key table and secondary inverted index, the `ActionKeyIdCodec` compound
key encoding, and the `IndexController::register_update` ingestion
pipeline (index_controller/mod.rs).

Byte strings are modelled as `List Nat` (each element a byte value),
timestamps as `Int`, and the two LMDB databases as association lists
from byte-string keys to values.  Stateful code becomes explicit state
passing; the low-level cursor operations of the inverted-index purge and
the steps of the ingestion pipeline are additionally recorded in an
event trace so that ordering properties can be stated.
-/

namespace MeiliVerify

/-- Byte strings: the keys and raw payloads of the embedded stores. -/
abbrev Bytes := List Nat

/-- Timestamps (`DateTime<Utc>` values in the source) modelled as integers. -/
abbrev Timestamp := Int

/-- Modelled from the spec: `Action` is the closed enumeration of permission
categories (its Rust definition lives in auth_resolver/mod.rs, which is not
under src/); each variant carries a stable single-byte numeric code given by
an explicit table (`Action.repr`), never inferred from declaration order. -/
inductive Action where
  | all
  | search
  | documentsAdd
  | documentsDelete
  | indexesCreate
  | indexesDelete
  | settingsGet
  | settingsUpdate
  | keysManage
deriving DecidableEq

/-- Modelled from the spec: the explicit, versioned single-byte code table of
`Action` (the wire code of each variant). -/
def Action.repr : Action → Nat
  | .all => 0
  | .search => 1
  | .documentsAdd => 2
  | .documentsDelete => 3
  | .indexesCreate => 4
  | .indexesDelete => 5
  | .settingsGet => 6
  | .settingsUpdate => 7
  | .keysManage => 8

/-- Modelled from the spec: `Action::from_repr`, the partial inverse of the
code table; an unrecognized code yields `none` (a corruption condition for
the codec). -/
def Action.from_repr : Nat → Option Action
  | 0 => some .all
  | 1 => some .search
  | 2 => some .documentsAdd
  | 3 => some .documentsDelete
  | 4 => some .indexesCreate
  | 5 => some .indexesDelete
  | 6 => some .settingsGet
  | 7 => some .settingsUpdate
  | 8 => some .keysManage
  | _ => none

/-- Whether a byte is a UTF-8 continuation byte (`0x80 ..= 0xBF`). -/
def isUtf8Cont (b : Nat) : Bool := 128 ≤ b && b ≤ 191

/-- UTF-8 validity of a byte string, following RFC 3629 exactly as
`str::from_utf8` checks it: ASCII, two-byte `C2..DF`, three-byte with the
`E0`/`ED` special ranges, and four-byte with the `F0`/`F4` special ranges.
This models the validity invariant of a Rust `&str`. -/
def utf8Valid : List Nat → Bool
  | [] => true
  | b :: rest =>
    if b ≤ 127 then utf8Valid rest
    else if 194 ≤ b && b ≤ 223 then
      match rest with
      | c1 :: r => isUtf8Cont c1 && utf8Valid r
      | [] => false
    else if b == 224 then
      match rest with
      | c1 :: c2 :: r => (160 ≤ c1 && c1 ≤ 191) && isUtf8Cont c2 && utf8Valid r
      | _ => false
    else if 225 ≤ b && b ≤ 236 then
      match rest with
      | c1 :: c2 :: r => isUtf8Cont c1 && isUtf8Cont c2 && utf8Valid r
      | _ => false
    else if b == 237 then
      match rest with
      | c1 :: c2 :: r => (128 ≤ c1 && c1 ≤ 159) && isUtf8Cont c2 && utf8Valid r
      | _ => false
    else if 238 ≤ b && b ≤ 239 then
      match rest with
      | c1 :: c2 :: r => isUtf8Cont c1 && isUtf8Cont c2 && utf8Valid r
      | _ => false
    else if b == 240 then
      match rest with
      | c1 :: c2 :: c3 :: r =>
          (144 ≤ c1 && c1 ≤ 191) && isUtf8Cont c2 && isUtf8Cont c3 && utf8Valid r
      | _ => false
    else if 241 ≤ b && b ≤ 243 then
      match rest with
      | c1 :: c2 :: c3 :: r =>
          isUtf8Cont c1 && isUtf8Cont c2 && isUtf8Cont c3 && utf8Valid r
      | _ => false
    else if b == 244 then
      match rest with
      | c1 :: c2 :: c3 :: r =>
          (128 ≤ c1 && c1 ≤ 143) && isUtf8Cont c2 && isUtf8Cont c3 && utf8Valid r
      | _ => false
    else false

/-- Translation of `try_split_at`: divides one slice into two at an index,
returns `none` if `mid` is out of bounds. -/
def try_split_at (slice : Bytes) (mid : Nat) : Option (Bytes × Bytes) :=
  if mid ≤ slice.length then some (slice.take mid, slice.drop mid) else none

/-- Translation of `try_split_array_at::<_, N>`: divides one slice into a
head of exactly `n` elements and the tail; the `try_into` conversion of the
head to an array always succeeds because the head has length exactly `n`. -/
def try_split_array_at (slice : Bytes) (n : Nat) : Option (Bytes × Bytes) :=
  try_split_at slice n

/-- The fixed length of a key id prefix (`KEY_ID_LENGTH`). -/
def KEY_ID_LENGTH : Nat := 8

namespace ActionKeyIdCodec

/-- Translation of `ActionKeyIdCodec::bytes_encode`: the compound key is the
8-byte id, then the single action code byte, then the optional raw UTF-8
scope bytes. -/
def bytes_encode (keyId : Bytes) (action : Action) (index : Option Bytes) : Bytes :=
  keyId ++ [action.repr] ++ (match index with | some s => s | none => [])

/-- Translation of `ActionKeyIdCodec::bytes_decode`: split off 8 id bytes,
then 1 action-code byte; zero remaining bytes mean no scope, any remaining
bytes are a scope that must be valid UTF-8; an unrecognized action code or
invalid UTF-8 is a decode failure. -/
def bytes_decode (bytes : Bytes) : Option (Bytes × Action × Option Bytes) :=
  match try_split_array_at bytes KEY_ID_LENGTH with
  | none => none
  | some (keyId, rest) =>
    match try_split_array_at rest 1 with
    | none => none
    | some (actionBytes, index) =>
      let scopeOpt : Option (Option Bytes) :=
        match index with
        | [] => some none
        | idx => if utf8Valid idx then some (some idx) else none
      match scopeOpt with
      | none => none
      | some scope =>
        match actionBytes with
        | [b] =>
          match Action.from_repr b with
          | none => none
          | some action => some (keyId, action, scope)
        | _ => none

end ActionKeyIdCodec

/-! LMDB databases are modelled as association lists from byte-string keys
to values; `dbGet` finds the binding of a key, `dbPut` overwrites it (put
semantics of `Database::put`), `dbRemove` erases it (`Database::delete`). -/

/-- Lookup of a key in a database. -/
def dbGet {V : Type} : List (Bytes × V) → Bytes → Option V
  | [], _ => none
  | e :: rest, k => if e.1 = k then some e.2 else dbGet rest k

/-- Removal of a key from a database. -/
def dbRemove {V : Type} : List (Bytes × V) → Bytes → List (Bytes × V)
  | [], _ => []
  | e :: rest, k => if e.1 = k then dbRemove rest k else e :: dbRemove rest k

/-- Map-style put: binds `k` to `v`, dropping any previous binding. -/
def dbPut {V : Type} (db : List (Bytes × V)) (k : Bytes) (v : V) : List (Bytes × V) :=
  (k, v) :: dbRemove db k

/-- Translation of `Database::delete` as used on the primary table: removes
the binding and reports whether one existed. -/
def dbDelete {V : Type} (db : List (Bytes × V)) (k : Bytes) : List (Bytes × V) × Bool :=
  (dbRemove db k, (dbGet db k).isSome)

/-- Low-level operations performed against the inverted index during a
prefix purge: a cursor advance (`iter.next()`), a delete of the entry the
cursor currently points at (`iter.del_current()`), and — for the
collect-then-delete strategy described by the spec — a delete by exact key
in a second pass. -/
inductive PurgeOp where
  | next
  | delCurrent
  | deleteExact (k : Bytes)
deriving DecidableEq

/-- Translation of the loop body of `delete_key_from_inverted_db`: a mutable
cursor ranges over the entries whose key starts with `id` (that is what
`prefix_iter_mut` positions it on); each `iter.next()` that yields an entry
is immediately followed by `iter.del_current()`, which removes that entry,
and a final `iter.next()` returning nothing ends the `while` loop.  Entries
whose key does not carry the prefix are outside the cursor's range and are
left in place.  The returned trace records the cursor operations in order. -/
def purgeStep (id : Bytes) : List (Bytes × Timestamp) → List (Bytes × Timestamp) × List PurgeOp
  | [] => ([], [PurgeOp.next])
  | e :: rest =>
    if id.isPrefixOf e.1 then
      ((purgeStep id rest).1, PurgeOp.next :: PurgeOp.delCurrent :: (purgeStep id rest).2)
    else
      (e :: (purgeStep id rest).1, (purgeStep id rest).2)

/-- A credential record, as stored by the auth store.  The Rust struct
(auth_resolver/mod.rs, not under src/) is reconstructed from its uses in
auth_store.rs and api_key.rs: an 8-byte id, an optional description, the
granted actions, the index scopes (index names as UTF-8 byte strings, with
`[42]` the wildcard `*`), and the three timestamps. -/
structure Key where
  id : Bytes
  description : Option Bytes
  actions : List Action
  indexes : List Bytes
  expires_at : Timestamp
  created_at : Timestamp
  updated_at : Timestamp
deriving DecidableEq

/-- The UTF-8 bytes of the wildcard index pattern `*`. -/
def star : Bytes := [42]

/-- The state of a `HeedAuthStore`: the primary `api-keys` table and the
`action-keyid-index-expiration` inverted index, each an LMDB database keyed
by byte strings.  A transaction in the pure model is one state transition. -/
structure AuthStore where
  keys : List (Bytes × Key)
  inv : List (Bytes × Timestamp)
deriving DecidableEq

/-- An auth store holding nothing, as produced by `HeedAuthStore::new` on a
fresh directory. -/
def authStoreEmpty : AuthStore := { keys := [], inv := [] }

namespace HeedAuthStore

/-- Translation of `HeedAuthStore::delete_key_from_inverted_db`: iterate a
mutable prefix cursor over the inverted index and delete each yielded entry
in place; returns the updated inverted index and the cursor-operation
trace. -/
def delete_key_from_inverted_db (inv : List (Bytes × Timestamp)) (id : Bytes) :
    List (Bytes × Timestamp) × List PurgeOp :=
  purgeStep id inv

/-- Translation of `HeedAuthStore::put_api_key`: inside one write
transaction, store the record under its id in the primary table, purge the
inverted index of every entry for that id, then refill the inverted index —
one `(id, action, None)` entry per action when `*` is among the indexes,
otherwise one `(id, action, Some(index))` entry per action and index — and
commit.  Returns the new store state and the key. -/
def put_api_key (s : AuthStore) (key : Key) : AuthStore × Key :=
  let keys1 := dbPut s.keys key.id key
  let inv1 := (delete_key_from_inverted_db s.inv key.id).1
  let no_index_restriction := key.indexes.contains star
  let inv2 := key.actions.foldl
    (fun db action =>
      if no_index_restriction then
        dbPut db (ActionKeyIdCodec.bytes_encode key.id action none) key.expires_at
      else
        key.indexes.foldl
          (fun db index =>
            dbPut db (ActionKeyIdCodec.bytes_encode key.id action (some index)) key.expires_at)
          db)
    inv1
  ({ keys := keys1, inv := inv2 }, key)

/-- Translation of `HeedAuthStore::get_api_key`: split the first
`KEY_ID_LENGTH` bytes off the credential and look the id up in the primary
table; a credential too short to contain an id yields `none`. -/
def get_api_key (s : AuthStore) (key : Bytes) : Option Key :=
  match try_split_array_at key KEY_ID_LENGTH with
  | some (id, _) => dbGet s.keys id
  | none => none

/-- Translation of `HeedAuthStore::delete_api_key`: same id extraction;
inside one write transaction delete the primary record and purge the
inverted index of every entry for that id, returning whether a record
existed; a credential too short to contain an id deletes nothing and
returns `false`. -/
def delete_api_key (s : AuthStore) (key : Bytes) : AuthStore × Bool :=
  match try_split_array_at key KEY_ID_LENGTH with
  | some (id, _) =>
    let (keys1, existing) := dbDelete s.keys id
    let inv1 := (delete_key_from_inverted_db s.inv id).1
    ({ keys := keys1, inv := inv1 }, existing)
  | none => (s, false)

/-- Translation of `HeedAuthStore::list_api_keys`: the values of the primary
table in iteration order. -/
def list_api_keys (s : AuthStore) : List Key :=
  s.keys.map Prod.snd

end HeedAuthStore

/-- Modelled from the spec: Key validation (performed by the auth resolver
before `put_api_key`; auth_resolver/mod.rs is not under src/) must reject an
empty-string scope name, because the compound encoding has no length prefix
or delimiter for the scope field and cannot represent an empty scope
distinctly from the no-scope entry. -/
def validate_key (k : Key) : Bool :=
  !(k.indexes.contains ([] : Bytes))

/-- Modelled from the spec: `put` behind Key validation — a key that fails
validation is rejected and never reaches `put_api_key`. -/
def validated_put (s : AuthStore) (k : Key) : Option (AuthStore × Key) :=
  if validate_key k then some (HeedAuthStore.put_api_key s k) else none

/-! Ingestion pipeline (`IndexController::register_update`,
index_controller/mod.rs). -/

/-- Translation of `DocumentAdditionFormat`. -/
inductive DocumentAdditionFormat where
  | json
  | csv
  | ndjson
deriving DecidableEq

/-- The `milli::update::IndexDocumentsMethod` carried by
`Update::DocumentAddition` (the external crate is out of scope; only the
two variants used by the boundary matter): full replacement, or field-level
update of documents sharing a primary key. -/
inductive IndexDocumentsMethod where
  | replaceDocuments
  | updateDocuments
deriving DecidableEq

/-- Modelled from the spec: the merge strategy recorded in a Task's
`DocumentAddition` content (`meilisearch_tasks::task`, not under src/):
replace, or update-fields. -/
inductive DocumentAdditionMergeStrategy where
  | replaceDocument
  | updateDocument
deriving DecidableEq

/-- Translation of `DocumentDeletion` (`meilisearch_tasks::task`, shape
fixed by its construction sites in register_update): delete by ids, or
clear all. -/
inductive DocumentDeletion where
  | ids (ids : List String)
  | clear
deriving DecidableEq

/-- The content of a Task, as constructed by `register_update`
(`meilisearch_tasks::task::TaskContent`, shape fixed by its construction
sites in register_update and the spec's data model). -/
inductive TaskContent where
  | documentDeletion (d : DocumentDeletion)
  | settingsUpdate
  | documentAddition (content_uuid : Nat)
      (merge_strategy : DocumentAdditionMergeStrategy)
      (primary_key : Option String) (documents_count : Nat)
  | indexDeletion
deriving DecidableEq

/-- A durable Task record (data model of the spec; `meilisearch_tasks` is
not under src/): id, owning index uid, and content. -/
structure Task where
  id : Nat
  index_uid : String
  content : TaskContent
deriving DecidableEq

/-- Modelled from the spec: the TaskStore is a durable, strictly-ordered
queue of Task records; the next TaskId is the number of tasks registered so
far. -/
structure TaskStore where
  tasks : List Task
deriving DecidableEq

/-- A task store holding no task. -/
def taskStoreEmpty : TaskStore := { tasks := [] }

/-- Modelled from the spec: `TaskStore::register` assigns the next TaskId
durably in the same commit that stores the Task record, stamps it enqueued,
and returns the stored snapshot (`meilisearch_tasks` is not under src/). -/
def taskRegister (s : TaskStore) (uid : String) (content : TaskContent) : Task × TaskStore :=
  let t : Task := { id := s.tasks.length, index_uid := uid, content := content }
  (t, { tasks := s.tasks ++ [t] })

/-- Translation of `Update` (index_controller/mod.rs).  A payload is the
already-materialized item sequence of the inbound byte stream: each item is
either a chunk of bytes or a transport error (`PayloadError`, modelled as
`Unit`). -/
inductive Update where
  | deleteDocuments (ids : List String)
  | clearDocuments
  | settings
  | documentAddition (payload : List (Except Unit Bytes)) (primary_key : Option String)
      (method : IndexDocumentsMethod) (format : DocumentAdditionFormat)
  | deleteIndex

/-- Translation of the drain loop of `register_update`: the buffer is the
concatenation of the stream's chunks; a transport error makes the whole
drain fail (the source hits `todo!("handle payload errors")` there). -/
def drainPayload : List (Except Unit Bytes) → Option Bytes
  | [] => some []
  | Except.ok b :: rest => (drainPayload rest).map (fun tail => b ++ tail)
  | Except.error _ :: _rest => none

/-- Observable steps of one `register_update` call, in program order: a
fresh content file is allocated (`update_file_store.new_update()`), the
parsed documents are streamed into it (`read_json`/`read_csv`/`read_ndjson`),
it is durably persisted (`update_file.persist()`), and the Task is
registered (`task_store.register`). -/
inductive RegEvent where
  | allocContent (uuid : Nat)
  | writeBlob (uuid : Nat)
  | persistBlob (uuid : Nat)
  | registerTask (id : Nat)
deriving DecidableEq

/-- How one `register_update` call ends: a Task is returned, or the process
panics (the source reaches a `todo!` or an `unwrap` on a failure). -/
inductive RegisterResult where
  | ok (t : Task)
  | panicked (msg : String)
deriving DecidableEq

/-- Translation of `IndexController::register_update`.  The document-format
readers (`document_formats`, an external capability per the spec) are passed
in as `parse`: given a format and the buffered payload they produce a
document count, writing the normalized documents into the blob, or fail —
and the source unwraps that result, so a parse failure panics.  `nextUuid`
is the fresh identifier `new_update` hands out.  Returns the outcome, the
updated task store, and the event trace in program order. -/
def register_update (parse : DocumentAdditionFormat → Bytes → Option Nat)
    (store : TaskStore) (nextUuid : Nat) (uid : String) (update : Update) :
    RegisterResult × TaskStore × List RegEvent :=
  match update with
  | .deleteDocuments ids =>
    let (t, store1) := taskRegister store uid (.documentDeletion (.ids ids))
    (.ok t, store1, [RegEvent.registerTask t.id])
  | .clearDocuments =>
    let (t, store1) := taskRegister store uid (.documentDeletion .clear)
    (.ok t, store1, [RegEvent.registerTask t.id])
  | .settings =>
    let (t, store1) := taskRegister store uid .settingsUpdate
    (.ok t, store1, [RegEvent.registerTask t.id])
  | .deleteIndex =>
    let (t, store1) := taskRegister store uid .indexDeletion
    (.ok t, store1, [RegEvent.registerTask t.id])
  | .documentAddition payload primary_key _method format =>
    match drainPayload payload with
    | none => (.panicked "handle payload errors", store, [])
    | some buffer =>
      let content_uuid := nextUuid
      if buffer = [] then
        (.panicked "empty payload error", store, [RegEvent.allocContent content_uuid])
      else
        match parse format buffer with
        | none =>
          (.panicked "called Option unwrap on a None value", store,
            [RegEvent.allocContent content_uuid, RegEvent.writeBlob content_uuid])
        | some documents_count =>
          let content := TaskContent.documentAddition content_uuid
            DocumentAdditionMergeStrategy.replaceDocument primary_key documents_count
          let (t, store1) := taskRegister store uid content
          (.ok t, store1,
            [RegEvent.allocContent content_uuid, RegEvent.writeBlob content_uuid,
             RegEvent.persistBlob content_uuid, RegEvent.registerTask t.id])

/-- The inverted-index writes of one `put_api_key`, flattened from the
nested loops into the list of compound keys written (all bound to the key's
`expires_at`). -/
def invKeysOf (k : Key) : List Bytes :=
  if k.indexes.contains star then
    k.actions.map (fun a => ActionKeyIdCodec.bytes_encode k.id a none)
  else
    k.actions.flatMap
      (fun a => k.indexes.map (fun s => ActionKeyIdCodec.bytes_encode k.id a (some s)))

/-- Iterated `dbPut` of a list of keys, all bound to the same value. -/
def foldPuts (db : List (Bytes × Timestamp)) (ks : List Bytes) (v : Timestamp) :
    List (Bytes × Timestamp) :=
  ks.foldl (fun d kk => dbPut d kk v) db

/-- An 8-byte key id used by the concrete witnesses. -/
def idSample : Bytes := [1, 2, 3, 4, 5, 6, 7, 8]

/-- A concrete key granting one action on all indexes. -/
def keySampleWild : Key :=
  { id := idSample, description := none, actions := [Action.documentsAdd],
    indexes := [star], expires_at := 5, created_at := 0, updated_at := 0 }

/-- A concrete key granting search on two literal indexes. -/
def keySampleScoped : Key :=
  { id := idSample, description := none, actions := [Action.search],
    indexes := [[109], [98]], expires_at := 9, created_at := 0, updated_at := 0 }

/-! Helper lemmas about the embedding. -/

theorem Action.from_repr_repr (a : Action) : Action.from_repr a.repr = some a := by
  cases a <;> rfl

theorem Action.repr_injective (a b : Action) (h : a.repr = b.repr) : a = b := by
  cases a <;> cases b <;> first | rfl | exact absurd h (by decide)

theorem dbGet_dbRemove {V : Type} (db : List (Bytes × V)) (k ek : Bytes) :
    dbGet (dbRemove db k) ek = if ek = k then none else dbGet db ek := by
  induction db with
  | nil => simp [dbRemove, dbGet]
  | cons e rest ih =>
    simp only [dbRemove]
    by_cases h1 : e.1 = k
    · rw [if_pos h1, ih]
      by_cases h2 : ek = k
      · simp [h2]
      · have he : ¬ e.1 = ek := by
          rw [h1]
          exact fun hh => h2 hh.symm
        simp [h2, dbGet, he]
    · rw [if_neg h1]
      by_cases h2 : ek = k
      · subst h2
        simp [dbGet, h1, ih]
      · simp [dbGet, ih, h2]

theorem dbGet_dbPut {V : Type} (db : List (Bytes × V)) (k ek : Bytes) (v : V) :
    dbGet (dbPut db k v) ek = if ek = k then some v else dbGet db ek := by
  simp only [dbPut, dbGet]
  by_cases h : ek = k
  · subst h
    simp
  · have hk : ¬ k = ek := fun hh => h hh.symm
    simp [h, hk, dbGet_dbRemove]

theorem purgeStep_fst (id : Bytes) (db : List (Bytes × Timestamp)) :
    (purgeStep id db).1 = db.filter (fun e => !(id.isPrefixOf e.1)) := by
  induction db with
  | nil => rfl
  | cons e rest ih =>
    by_cases h : id.isPrefixOf e.1 <;> simp [purgeStep, h, ih, List.filter_cons]

theorem purgeStep_snd (id : Bytes) (db : List (Bytes × Timestamp)) :
    (purgeStep id db).2 =
      (db.filter (fun e => id.isPrefixOf e.1)).flatMap
          (fun _ => [PurgeOp.next, PurgeOp.delCurrent])
        ++ [PurgeOp.next] := by
  induction db with
  | nil => rfl
  | cons e rest ih =>
    by_cases h : id.isPrefixOf e.1 <;> simp [purgeStep, h, ih, List.filter_cons]

theorem dbGet_purgeStep (id : Bytes) (db : List (Bytes × Timestamp)) (ek : Bytes) :
    dbGet (purgeStep id db).1 ek =
      if id.isPrefixOf ek then none else dbGet db ek := by
  induction db with
  | nil => simp [purgeStep, dbGet]
  | cons e rest ih =>
    by_cases h1 : id.isPrefixOf e.1
    · rw [show (purgeStep id (e :: rest)).1 = (purgeStep id rest).1 by
        simp [purgeStep, h1]]
      rw [ih]
      by_cases h2 : id.isPrefixOf ek
      · simp [h2]
      · have hne : e.1 ≠ ek := by
          intro hh
          rw [hh] at h1
          exact h2 h1
        simp [h2, dbGet, hne]
    · rw [show (purgeStep id (e :: rest)).1 = e :: (purgeStep id rest).1 by
        simp [purgeStep, h1]]
      by_cases h3 : e.1 = ek
      · have h2 : ¬ (id.isPrefixOf ek = true) := by
          intro hh
          rw [← h3] at hh
          exact h1 hh
        simp [dbGet, h3, h2]
      · simp [dbGet, h3, ih]

theorem dbGet_foldPuts (db : List (Bytes × Timestamp)) (ks : List Bytes) (v : Timestamp)
    (ek : Bytes) :
    dbGet (foldPuts db ks v) ek = if ek ∈ ks then some v else dbGet db ek := by
  induction ks generalizing db with
  | nil => simp [foldPuts]
  | cons kk ks ih =>
    rw [show foldPuts db (kk :: ks) v = foldPuts (dbPut db kk v) ks v from rfl, ih]
    by_cases h1 : ek ∈ ks <;> by_cases h2 : ek = kk <;>
      simp [h1, h2, dbGet_dbPut]

theorem foldl_foldPuts (acts : List Action) (f : Action → List Bytes) (v : Timestamp)
    (db : List (Bytes × Timestamp)) :
    acts.foldl (fun d a => foldPuts d (f a) v) db = foldPuts db (acts.flatMap f) v := by
  induction acts generalizing db with
  | nil => simp [foldPuts]
  | cons a as ih =>
    simp only [List.foldl_cons, List.flatMap_cons, ih]
    simp only [foldPuts, List.foldl_append]

theorem contains_iff_mem (l : List Bytes) (x : Bytes) : l.contains x = true ↔ x ∈ l := by
  simp [List.contains, List.elem_iff]

theorem put_api_key_inv (s : AuthStore) (k : Key) :
    ((HeedAuthStore.put_api_key s k).1).inv
      = foldPuts (purgeStep k.id s.inv).1 (invKeysOf k) k.expires_at := by
  by_cases h : k.indexes.contains star
  · simp only [HeedAuthStore.put_api_key, HeedAuthStore.delete_key_from_inverted_db,
      invKeysOf, h, if_true, foldPuts, List.foldl_map]
  · have hb : k.indexes.contains star = false := by
      rwa [Bool.not_eq_true] at h
    have hmem : star ∉ k.indexes := by
      intro hm
      rw [(contains_iff_mem k.indexes star).mpr hm] at hb
      exact Bool.true_eq_false.mp hb
    rw [show invKeysOf k = k.actions.flatMap
          (fun a => k.indexes.map fun s => ActionKeyIdCodec.bytes_encode k.id a (some s)) from by
        simp [invKeysOf, hb, hmem]]
    rw [← foldl_foldPuts]
    simp only [HeedAuthStore.put_api_key, HeedAuthStore.delete_key_from_inverted_db, hb,
      Bool.false_eq_true, if_false, foldPuts, List.foldl_map]

/-- Master characterization of the inverted index after `put_api_key`: the
keys written by this put read back `expires_at`; every other key with this
id prefix reads back nothing (purged); keys outside the prefix are
untouched. -/
theorem dbGet_put_api_key (s : AuthStore) (k : Key) (ek : Bytes) :
    dbGet ((HeedAuthStore.put_api_key s k).1).inv ek
      = if ek ∈ invKeysOf k then some k.expires_at
        else if k.id.isPrefixOf ek then none else dbGet s.inv ek := by
  rw [put_api_key_inv, dbGet_foldPuts, dbGet_purgeStep]

theorem mem_invKeysOf (k : Key) (ek : Bytes) :
    ek ∈ invKeysOf k ↔
      (if star ∈ k.indexes then
        ∃ a ∈ k.actions, ek = ActionKeyIdCodec.bytes_encode k.id a none
      else
        ∃ a ∈ k.actions, ∃ s ∈ k.indexes,
          ek = ActionKeyIdCodec.bytes_encode k.id a (some s)) := by
  by_cases h : star ∈ k.indexes
  · simp [invKeysOf, (contains_iff_mem k.indexes star).mpr h, h, List.mem_map, eq_comm]
  · have hc : k.indexes.contains star = false := by
      rw [← Bool.not_eq_true, contains_iff_mem]
      exact h
    simp [invKeysOf, hc, h, List.mem_flatMap, List.mem_map, eq_comm]

theorem bytes_encode_none_ne_some (id : Bytes) (a b : Action) (s : Bytes)
    (hs : s ≠ ([] : Bytes)) :
    ActionKeyIdCodec.bytes_encode id a none ≠ ActionKeyIdCodec.bytes_encode id b (some s) := by
  intro h
  simp only [ActionKeyIdCodec.bytes_encode, List.append_assoc] at h
  have h2 := List.append_cancel_left h
  simp only [List.append_nil, List.cons_append, List.nil_append] at h2
  injection h2 with hh1 hh2
  exact hs hh2.symm

/-! Claim theorems and witnesses. -/

/-- C1: for keys `k` and `k1` with the same 8-byte id, `put_api_key k` then
`put_api_key k1` — each one atomic transaction of record write, full
inverted purge for the id, and index rebuild — leaves the inverted index,
at every compound key carrying that id prefix, exactly as a store holding
only the entries derived from `k1`: no entry derived from `k` remains. -/
theorem put_put_same_id_exact (s : AuthStore) (k k1 : Key) (ek : Bytes)
    (hid : k1.id = k.id) (hp : k.id.isPrefixOf ek = true) :
    dbGet ((HeedAuthStore.put_api_key (HeedAuthStore.put_api_key s k).1 k1).1).inv ek
      = dbGet ((HeedAuthStore.put_api_key authStoreEmpty k1).1).inv ek := by
  rw [dbGet_put_api_key, dbGet_put_api_key, dbGet_put_api_key, hid]
  simp [hp, authStoreEmpty, dbGet]

/-- Witness for C1 at two concrete keys sharing the id `idSample`, probed
at the compound key that `keySampleWild` had written. -/
theorem put_put_same_id_exact_witness :
    keySampleScoped.id = keySampleWild.id
    ∧ keySampleWild.id.isPrefixOf
        (ActionKeyIdCodec.bytes_encode idSample Action.documentsAdd none) = true
    ∧ dbGet ((HeedAuthStore.put_api_key
          (HeedAuthStore.put_api_key authStoreEmpty keySampleWild).1 keySampleScoped).1).inv
        (ActionKeyIdCodec.bytes_encode idSample Action.documentsAdd none)
      = dbGet ((HeedAuthStore.put_api_key authStoreEmpty keySampleScoped).1).inv
        (ActionKeyIdCodec.bytes_encode idSample Action.documentsAdd none) :=
  ⟨rfl, by decide,
    put_put_same_id_exact authStoreEmpty keySampleWild keySampleScoped _ rfl (by decide)⟩

/-- C2: `put_api_key` on a fresh store fills the inverted index by the
index-build rule — a binding of compound key `ek` to value `v` exists iff
`v` is the key's `expires_at` and, when `*` is among the indexes, `ek` is
the no-scope compound key of exactly one granted action, and otherwise `ek`
is the scoped compound key of one granted action and one granted index;
moreover in the non-wildcard case no no-scope entry exists for any action
`a0`.  Scope names are nonempty, the data-model validity constraint. -/
theorem put_api_key_index_build_rule (k : Key) (ek : Bytes) (v : Timestamp) (a0 : Action)
    (hval : ∀ s ∈ k.indexes, s ≠ ([] : Bytes)) :
    (dbGet ((HeedAuthStore.put_api_key authStoreEmpty k).1).inv ek = some v ↔
      (v = k.expires_at ∧
        if star ∈ k.indexes then
          ∃ a ∈ k.actions, ek = ActionKeyIdCodec.bytes_encode k.id a none
        else
          ∃ a ∈ k.actions, ∃ s ∈ k.indexes,
            ek = ActionKeyIdCodec.bytes_encode k.id a (some s)))
    ∧ (star ∉ k.indexes →
        dbGet ((HeedAuthStore.put_api_key authStoreEmpty k).1).inv
          (ActionKeyIdCodec.bytes_encode k.id a0 none) = none) := by
  constructor
  · rw [dbGet_put_api_key]
    simp only [authStoreEmpty, dbGet, ite_self]
    by_cases hm : ek ∈ invKeysOf k
    · simp only [hm, if_true]
      constructor
      · intro hv
        injection hv with hv
        exact ⟨hv.symm, (mem_invKeysOf k ek).mp hm⟩
      · intro hv
        rw [hv.1]
    · simp only [hm, if_false]
      constructor
      · intro hv
        exact absurd hv (by simp)
      · intro hv
        exact absurd ((mem_invKeysOf k ek).mpr hv.2) hm
  · intro hstar
    rw [dbGet_put_api_key]
    have hm : ActionKeyIdCodec.bytes_encode k.id a0 none ∉ invKeysOf k := by
      rw [mem_invKeysOf]
      simp only [hstar, if_false]
      intro hex
      obtain ⟨a, _, s, hsmem, hekeq⟩ := hex
      exact bytes_encode_none_ne_some k.id a0 a s (hval s hsmem) hekeq
    simp [hm, authStoreEmpty, dbGet, ite_self]

/-- Witness for C2 at `keySampleScoped` (two nonempty literal indexes, no
wildcard), probed at the scoped compound key for `movies` with the stored
expiry. -/
theorem put_api_key_index_build_rule_witness :
    (∀ s ∈ keySampleScoped.indexes, s ≠ ([] : Bytes))
    ∧ ((dbGet ((HeedAuthStore.put_api_key authStoreEmpty keySampleScoped).1).inv
          (ActionKeyIdCodec.bytes_encode keySampleScoped.id Action.search (some [109]))
            = some 9 ↔
        ((9 : Timestamp) = keySampleScoped.expires_at ∧
          if star ∈ keySampleScoped.indexes then
            ∃ a ∈ keySampleScoped.actions,
              ActionKeyIdCodec.bytes_encode keySampleScoped.id Action.search (some [109])
                = ActionKeyIdCodec.bytes_encode keySampleScoped.id a none
          else
            ∃ a ∈ keySampleScoped.actions, ∃ s ∈ keySampleScoped.indexes,
              ActionKeyIdCodec.bytes_encode keySampleScoped.id Action.search (some [109])
                = ActionKeyIdCodec.bytes_encode keySampleScoped.id a (some s)))
      ∧ (star ∉ keySampleScoped.indexes →
          dbGet ((HeedAuthStore.put_api_key authStoreEmpty keySampleScoped).1).inv
            (ActionKeyIdCodec.bytes_encode keySampleScoped.id Action.search none) = none)) :=
  ⟨by decide,
    put_api_key_index_build_rule keySampleScoped
      (ActionKeyIdCodec.bytes_encode keySampleScoped.id Action.search (some [109]))
      9 Action.search (by decide)⟩

/-- C5 counterexample: on an inverted index holding one entry for the id
`[1,…,8]`, the purge deletes that entry through the live cursor — the
cursor-operation trace is a `del_current` between two `next` advances, and
contains no delete-by-exact-key of a collected list, refuting the claim
that the purge never deletes entries through a live cursor while
iterating. -/
theorem purge_not_two_phase :
    PurgeOp.delCurrent ∈
      (HeedAuthStore.delete_key_from_inverted_db
        [([1, 2, 3, 4, 5, 6, 7, 8, 1], (0 : Timestamp))] [1, 2, 3, 4, 5, 6, 7, 8]).2
    ∧ (HeedAuthStore.delete_key_from_inverted_db
        [([1, 2, 3, 4, 5, 6, 7, 8, 1], (0 : Timestamp))] [1, 2, 3, 4, 5, 6, 7, 8]).2
      = [PurgeOp.next, PurgeOp.delCurrent, PurgeOp.next] := by
  decide

/-- C5 (amended): the purge of inverted entries matching an id prefix is a
single pass over a live mutable prefix cursor — each entry the cursor
yields is immediately deleted through the cursor (`del_current` right after
each `next`), with no temporary key list and no delete-by-exact-key second
pass — and its net effect removes exactly the entries whose key starts with
the id. -/
theorem purge_live_cursor_single_pass (inv : List (Bytes × Timestamp)) (id : Bytes) :
    HeedAuthStore.delete_key_from_inverted_db inv id
      = (inv.filter (fun e => !(id.isPrefixOf e.1)),
         (inv.filter (fun e => id.isPrefixOf e.1)).flatMap
             (fun _ => [PurgeOp.next, PurgeOp.delCurrent])
           ++ [PurgeOp.next]) := by
  rw [Prod.ext_iff]
  exact ⟨purgeStep_fst id inv, purgeStep_snd id inv⟩

/-- C6: for a credential of at least 8 bytes, `delete_api_key` — one atomic
transaction — deletes the primary record stored under the credential's
first 8 bytes, returns whether a record existed, and purges every inverted
entry whose key starts with that id while leaving the rest of the inverted
index untouched; afterwards `get_api_key` by the same credential finds
nothing and a prefix scan over the id finds no inverted entry. -/
theorem delete_api_key_purges (s : AuthStore) (cred ek : Bytes)
    (h : KEY_ID_LENGTH ≤ cred.length) :
    (HeedAuthStore.delete_api_key s cred).2
        = (dbGet s.keys (cred.take KEY_ID_LENGTH)).isSome
    ∧ dbGet ((HeedAuthStore.delete_api_key s cred).1).keys (cred.take KEY_ID_LENGTH) = none
    ∧ HeedAuthStore.get_api_key (HeedAuthStore.delete_api_key s cred).1 cred = none
    ∧ ((cred.take KEY_ID_LENGTH).isPrefixOf ek = true →
        dbGet ((HeedAuthStore.delete_api_key s cred).1).inv ek = none)
    ∧ ((cred.take KEY_ID_LENGTH).isPrefixOf ek = false →
        dbGet ((HeedAuthStore.delete_api_key s cred).1).inv ek = dbGet s.inv ek) := by
  have hsplit : try_split_array_at cred KEY_ID_LENGTH
      = some (cred.take KEY_ID_LENGTH, cred.drop KEY_ID_LENGTH) := by
    simp [try_split_array_at, try_split_at, h]
  refine ⟨?_, ?_, ?_, ?_, ?_⟩
  · simp [HeedAuthStore.delete_api_key, dbDelete, hsplit]
  · simp [HeedAuthStore.delete_api_key, dbDelete, hsplit, dbGet_dbRemove]
  · simp [HeedAuthStore.delete_api_key, HeedAuthStore.get_api_key, dbDelete, hsplit,
      dbGet_dbRemove]
  · intro hp
    simp only [HeedAuthStore.delete_api_key, HeedAuthStore.delete_key_from_inverted_db,
      dbDelete, hsplit]
    rw [dbGet_purgeStep]
    simp [hp]
  · intro hp
    simp only [HeedAuthStore.delete_api_key, HeedAuthStore.delete_key_from_inverted_db,
      dbDelete, hsplit]
    rw [dbGet_purgeStep]
    simp [hp]

/-- Witness for C6 on a concrete store holding `keySampleWild` under
`idSample` together with its one inverted entry, deleted through a 9-byte
credential starting with that id. -/
theorem delete_api_key_purges_witness :
    KEY_ID_LENGTH ≤ ([1, 2, 3, 4, 5, 6, 7, 8, 99] : Bytes).length
    ∧ (HeedAuthStore.delete_api_key
          { keys := [(idSample, keySampleWild)],
            inv := [(ActionKeyIdCodec.bytes_encode idSample Action.documentsAdd none, 5)] }
          [1, 2, 3, 4, 5, 6, 7, 8, 99]).2
        = (dbGet
            (({ keys := [(idSample, keySampleWild)],
                inv := [(ActionKeyIdCodec.bytes_encode idSample Action.documentsAdd none, 5)] }
              : AuthStore)).keys
            (([1, 2, 3, 4, 5, 6, 7, 8, 99] : Bytes).take KEY_ID_LENGTH)).isSome
    ∧ dbGet ((HeedAuthStore.delete_api_key
          { keys := [(idSample, keySampleWild)],
            inv := [(ActionKeyIdCodec.bytes_encode idSample Action.documentsAdd none, 5)] }
          [1, 2, 3, 4, 5, 6, 7, 8, 99]).1).keys
        (([1, 2, 3, 4, 5, 6, 7, 8, 99] : Bytes).take KEY_ID_LENGTH) = none
    ∧ HeedAuthStore.get_api_key (HeedAuthStore.delete_api_key
          { keys := [(idSample, keySampleWild)],
            inv := [(ActionKeyIdCodec.bytes_encode idSample Action.documentsAdd none, 5)] }
          [1, 2, 3, 4, 5, 6, 7, 8, 99]).1 [1, 2, 3, 4, 5, 6, 7, 8, 99] = none
    ∧ ((([1, 2, 3, 4, 5, 6, 7, 8, 99] : Bytes).take KEY_ID_LENGTH).isPrefixOf
          (ActionKeyIdCodec.bytes_encode idSample Action.documentsAdd none) = true →
        dbGet ((HeedAuthStore.delete_api_key
          { keys := [(idSample, keySampleWild)],
            inv := [(ActionKeyIdCodec.bytes_encode idSample Action.documentsAdd none, 5)] }
          [1, 2, 3, 4, 5, 6, 7, 8, 99]).1).inv
          (ActionKeyIdCodec.bytes_encode idSample Action.documentsAdd none) = none) := by
  have hmain := delete_api_key_purges
    { keys := [(idSample, keySampleWild)],
      inv := [(ActionKeyIdCodec.bytes_encode idSample Action.documentsAdd none, 5)] }
    [1, 2, 3, 4, 5, 6, 7, 8, 99]
    (ActionKeyIdCodec.bytes_encode idSample Action.documentsAdd none) (by decide)
  exact ⟨by decide, hmain.1, hmain.2.1, hmain.2.2.1, hmain.2.2.2.1⟩

/-- C7: decoding the compound-key encoding of an 8-byte id, an action, and
an optional nonempty valid-UTF-8 scope yields the triple back — the
encode/decode round trip of `ActionKeyIdCodec` is the identity. -/
theorem bytes_encode_decode_roundtrip (id : Bytes) (a : Action) (scope : Option Bytes)
    (hlen : id.length = KEY_ID_LENGTH)
    (hscope : ∀ s, scope = some s → s ≠ ([] : Bytes) ∧ utf8Valid s = true) :
    ActionKeyIdCodec.bytes_decode (ActionKeyIdCodec.bytes_encode id a scope)
      = some (id, a, scope) := by
  cases scope with
  | none =>
    have h1 : try_split_array_at (ActionKeyIdCodec.bytes_encode id a none) KEY_ID_LENGTH
        = some (id, [a.repr]) := by
      simp only [ActionKeyIdCodec.bytes_encode, List.append_nil, try_split_array_at,
        try_split_at]
      rw [if_pos (by rw [List.length_append, hlen]; simp [KEY_ID_LENGTH])]
      rw [List.take_left' hlen, List.drop_left' hlen]
    have h2 : try_split_array_at ([a.repr] : Bytes) 1 = some ([a.repr], []) := by
      simp [try_split_array_at, try_split_at]
    simp only [ActionKeyIdCodec.bytes_decode, h1, h2, Action.from_repr_repr]
  | some s =>
    obtain ⟨hne, hva⟩ := hscope s rfl
    cases s with
    | nil => exact absurd rfl hne
    | cons c cs =>
      have h1 : try_split_array_at (ActionKeyIdCodec.bytes_encode id a (some (c :: cs)))
          KEY_ID_LENGTH = some (id, [a.repr] ++ (c :: cs)) := by
        simp only [ActionKeyIdCodec.bytes_encode, List.append_assoc, try_split_array_at,
          try_split_at]
        rw [if_pos (by rw [List.length_append, hlen]; simp [KEY_ID_LENGTH])]
        rw [List.take_left' hlen, List.drop_left' hlen]
      have h2 : try_split_array_at (([a.repr] ++ (c :: cs)) : Bytes) 1
          = some ([a.repr], c :: cs) := by
        simp [try_split_array_at, try_split_at]
      simp only [ActionKeyIdCodec.bytes_decode, h1, h2, hva, if_true,
        Action.from_repr_repr]

/-- Witness for C7 at the concrete id `idSample`, the search action, and
the scope bytes of `movies`. -/
theorem bytes_encode_decode_roundtrip_witness :
    idSample.length = KEY_ID_LENGTH
    ∧ utf8Valid [109, 111, 118, 105, 101, 115] = true
    ∧ ActionKeyIdCodec.bytes_decode
        (ActionKeyIdCodec.bytes_encode idSample Action.search
          (some [109, 111, 118, 105, 101, 115]))
      = some (idSample, Action.search, some [109, 111, 118, 105, 101, 115]) :=
  ⟨by decide, by decide,
    bytes_encode_decode_roundtrip idSample Action.search
      (some [109, 111, 118, 105, 101, 115]) (by decide)
      (fun s hs => by
        cases hs
        exact ⟨by decide, by decide⟩)⟩

/-- C8: a Key whose indexes contain the empty string is rejected at
Key-validation time, before `put_api_key` can run; the reason is the
encode-level collision proved in the second conjunct — the compound key of
an empty-string scope is byte-identical to the no-scope (wildcard) compound
key for the same id and action. -/
theorem empty_scope_rejected (s : AuthStore) (k : Key) (a : Action)
    (h : ([] : Bytes) ∈ k.indexes) :
    validated_put s k = none
    ∧ ActionKeyIdCodec.bytes_encode k.id a (some [])
        = ActionKeyIdCodec.bytes_encode k.id a none := by
  constructor
  · simp [validated_put, validate_key, h]
  · rfl

/-- Witness for C8 at a concrete key whose only index pattern is the empty
string. -/
theorem empty_scope_rejected_witness :
    ([] : Bytes) ∈
      (({ id := idSample, description := none, actions := [Action.search],
          indexes := [([] : Bytes)], expires_at := 5, created_at := 0,
          updated_at := 0 } : Key)).indexes
    ∧ validated_put authStoreEmpty
        { id := idSample, description := none, actions := [Action.search],
          indexes := [([] : Bytes)], expires_at := 5, created_at := 0, updated_at := 0 }
        = none
    ∧ ActionKeyIdCodec.bytes_encode
        (({ id := idSample, description := none, actions := [Action.search],
            indexes := [([] : Bytes)], expires_at := 5, created_at := 0,
            updated_at := 0 } : Key)).id Action.search (some [])
      = ActionKeyIdCodec.bytes_encode
        (({ id := idSample, description := none, actions := [Action.search],
            indexes := [([] : Bytes)], expires_at := 5, created_at := 0,
            updated_at := 0 } : Key)).id Action.search none := by
  have hmain := empty_scope_rejected authStoreEmpty
    { id := idSample, description := none, actions := [Action.search],
      indexes := [([] : Bytes)], expires_at := 5, created_at := 0, updated_at := 0 }
    Action.search (by decide)
  exact ⟨by decide, hmain.1, hmain.2⟩

/-- C10: a credential shorter than 8 bytes yields no 8-byte id prefix, so
`get_api_key` returns no record and `delete_api_key` returns `false`
leaving the whole store — both the primary table and the inverted index —
unchanged; neither surfaces an error. -/
theorem short_credential_noop (s : AuthStore) (cred : Bytes)
    (h : cred.length < KEY_ID_LENGTH) :
    HeedAuthStore.get_api_key s cred = none
    ∧ HeedAuthStore.delete_api_key s cred = (s, false) := by
  have hs : try_split_array_at cred KEY_ID_LENGTH = none := by
    simp [try_split_array_at, try_split_at, Nat.not_le.mpr h]
  simp [HeedAuthStore.get_api_key, HeedAuthStore.delete_api_key, hs]

/-- Witness for C10 at a 3-byte credential against a nonempty store. -/
theorem short_credential_noop_witness :
    ([1, 2, 3] : Bytes).length < KEY_ID_LENGTH
    ∧ HeedAuthStore.get_api_key
        { keys := [(idSample, keySampleWild)],
          inv := [(ActionKeyIdCodec.bytes_encode idSample Action.documentsAdd none, 5)] }
        [1, 2, 3] = none
    ∧ HeedAuthStore.delete_api_key
        { keys := [(idSample, keySampleWild)],
          inv := [(ActionKeyIdCodec.bytes_encode idSample Action.documentsAdd none, 5)] }
        [1, 2, 3]
      = ({ keys := [(idSample, keySampleWild)],
           inv := [(ActionKeyIdCodec.bytes_encode idSample Action.documentsAdd none, 5)] },
          false) := by
  have hmain := short_credential_noop
    { keys := [(idSample, keySampleWild)],
      inv := [(ActionKeyIdCodec.bytes_encode idSample Action.documentsAdd none, 5)] }
    [1, 2, 3] (by decide)
  exact ⟨by decide, hmain.1, hmain.2⟩

/-- C3 (code behavior at the failing inputs): registering a
DocumentAddition whose payload is empty, or whose stream carries a
transport error, does not return a client-data error — the source reaches
`todo!("empty payload error")` respectively `todo!("handle payload
errors")`, modelled as a panic; the task store is unchanged (no new Task
in a listing) only because the process panics. -/
theorem register_update_payload_todo :
    register_update (fun _ _ => some 0) taskStoreEmpty 0 "movies"
        (Update.documentAddition [Except.ok []] none IndexDocumentsMethod.replaceDocuments
          DocumentAdditionFormat.json)
      = (RegisterResult.panicked "empty payload error", taskStoreEmpty,
          [RegEvent.allocContent 0])
    ∧ register_update (fun _ _ => some 0) taskStoreEmpty 0 "movies"
        (Update.documentAddition [Except.error ()] none IndexDocumentsMethod.replaceDocuments
          DocumentAdditionFormat.json)
      = (RegisterResult.panicked "handle payload errors", taskStoreEmpty, []) :=
  ⟨rfl, rfl⟩

/-- C4: on every successful DocumentAddition registration, the payload is
fully drained into the buffer, the content blob is written and durably
persisted (`update_file.persist()`), and only then is the Task referencing
`nextUuid` registered: the event trace places `persistBlob` strictly
before `registerTask`, so a visible Task always references retrievable
content. -/
theorem register_update_persists_before_task
    (parse : DocumentAdditionFormat → Bytes → Option Nat) (store : TaskStore)
    (nextUuid : Nat) (uid : String) (payload : List (Except Unit Bytes))
    (pk : Option String) (m : IndexDocumentsMethod) (fmt : DocumentAdditionFormat)
    (buffer : Bytes) (n : Nat)
    (hd : drainPayload payload = some buffer) (hne : buffer ≠ [])
    (hp : parse fmt buffer = some n) :
    register_update parse store nextUuid uid (Update.documentAddition payload pk m fmt)
      = (RegisterResult.ok
            { id := store.tasks.length, index_uid := uid,
              content := TaskContent.documentAddition nextUuid
                DocumentAdditionMergeStrategy.replaceDocument pk n },
         { tasks := store.tasks ++
             [{ id := store.tasks.length, index_uid := uid,
                content := TaskContent.documentAddition nextUuid
                  DocumentAdditionMergeStrategy.replaceDocument pk n }] },
         [RegEvent.allocContent nextUuid, RegEvent.writeBlob nextUuid,
          RegEvent.persistBlob nextUuid, RegEvent.registerTask store.tasks.length])
    ∧ ((register_update parse store nextUuid uid
          (Update.documentAddition payload pk m fmt)).2.2)[2]?
        = some (RegEvent.persistBlob nextUuid)
    ∧ ((register_update parse store nextUuid uid
          (Update.documentAddition payload pk m fmt)).2.2)[3]?
        = some (RegEvent.registerTask store.tasks.length) := by
  have hmain : register_update parse store nextUuid uid
      (Update.documentAddition payload pk m fmt)
      = (RegisterResult.ok
            { id := store.tasks.length, index_uid := uid,
              content := TaskContent.documentAddition nextUuid
                DocumentAdditionMergeStrategy.replaceDocument pk n },
         { tasks := store.tasks ++
             [{ id := store.tasks.length, index_uid := uid,
                content := TaskContent.documentAddition nextUuid
                  DocumentAdditionMergeStrategy.replaceDocument pk n }] },
         [RegEvent.allocContent nextUuid, RegEvent.writeBlob nextUuid,
          RegEvent.persistBlob nextUuid, RegEvent.registerTask store.tasks.length]) := by
    simp [register_update, hd, hne, hp, taskRegister]
  refine ⟨hmain, ?_, ?_⟩
  · rw [hmain]
    rfl
  · rw [hmain]
    rfl

/-- Witness for C4 at a one-chunk payload of one byte, with a parser that
reports 3 documents, against the empty task store. -/
theorem register_update_persists_before_task_witness :
    drainPayload [Except.ok [97]] = some [97]
    ∧ ([97] : Bytes) ≠ []
    ∧ (fun (_ : DocumentAdditionFormat) (_ : Bytes) => some 3)
        DocumentAdditionFormat.ndjson [97] = some 3
    ∧ register_update (fun _ _ => some 3) taskStoreEmpty 0 "movies"
        (Update.documentAddition [Except.ok [97]] none
          IndexDocumentsMethod.replaceDocuments DocumentAdditionFormat.ndjson)
      = (RegisterResult.ok
            { id := taskStoreEmpty.tasks.length, index_uid := "movies",
              content := TaskContent.documentAddition 0
                DocumentAdditionMergeStrategy.replaceDocument none 3 },
         { tasks := taskStoreEmpty.tasks ++
             [{ id := taskStoreEmpty.tasks.length, index_uid := "movies",
                content := TaskContent.documentAddition 0
                  DocumentAdditionMergeStrategy.replaceDocument none 3 }] },
         [RegEvent.allocContent 0, RegEvent.writeBlob 0,
          RegEvent.persistBlob 0, RegEvent.registerTask taskStoreEmpty.tasks.length]) :=
  ⟨rfl, by decide, rfl,
    (register_update_persists_before_task (fun _ _ => some 3) taskStoreEmpty 0 "movies"
      [Except.ok [97]] none IndexDocumentsMethod.replaceDocuments
      DocumentAdditionFormat.ndjson [97] 3 rfl (by decide) rfl).1⟩

/-- C9 (code behavior at the failing input): a DocumentAddition request
whose method is update-fields (`IndexDocumentsMethod.updateDocuments`)
yields a Task that carries the fresh content reference, the parsed count,
and the requested primary key, but whose merge strategy is the hardcoded
`ReplaceDocument` — not update-fields; the `method` field of the request is
dropped. -/
theorem register_update_hardcodes_replace :
    (register_update (fun _ _ => some 1) taskStoreEmpty 7 "movies"
        (Update.documentAddition [Except.ok [123]] (some "pk")
          IndexDocumentsMethod.updateDocuments DocumentAdditionFormat.json)).1
      = RegisterResult.ok
          { id := 0, index_uid := "movies",
            content := TaskContent.documentAddition 7
              DocumentAdditionMergeStrategy.replaceDocument (some "pk") 1 } :=
  rfl

end MeiliVerify
